import Mathlib

/-!
Verification development for the riot environment-matrix runner
(`riot/riot.py`, `riot/venv.py`, `riot/interpreter.py`, `riot/utils.py`,
`riot/config.py`).

Python strings are embedded as `List Char`; Python `dict`s (which preserve
insertion order and key uniqueness) are embedded as association lists with
`dict`-faithful operations (`dictUpdate` keeps the position of overridden
keys and appends new keys, like `dict.update`).  Machine-level details that
matter (CPython's truncation of `__hash__` results, `hex`, `repr` of
strings) are modelled explicitly below, next to their uses.
-/

/-- Python strings are embedded as lists of characters. -/
abbrev PyStr := List Char

/-- Convert a Lean string literal to the embedding of a Python string. -/
def pstr (s : String) : PyStr := s.data

/-- The apostrophe character (code 39), kept as a named constant. -/
def quoteChar : Char := Char.ofNat 39

/-- The double-quote character (code 34). -/
def dquoteChar : Char := Char.ofNat 34

/-- The backslash character (code 92). -/
def backslashChar : Char := Char.ofNat 92

/-- First value bound to `k` in an association list; embeds `d[k]` /
`d.get(k)` lookup on a Python `dict` (whose keys are unique). -/
def dictLookup {V : Type} (d : List (PyStr × V)) (k : PyStr) : Option V :=
  match d with
  | [] => none
  | (k', v) :: rest => if k' = k then some v else dictLookup rest k

/-- Embeds `k in d` for a Python `dict`. -/
def dictContains {V : Type} (d : List (PyStr × V)) (k : PyStr) : Bool :=
  match d with
  | [] => false
  | (k', _) :: rest => if k' = k then true else dictContains rest k

/-- Embeds `d.update(e)` on Python `dict`s: keys already in `d` keep their
position and receive the value from `e` when `e` also binds them; keys of
`e` not in `d` are appended in the order `e` lists them. -/
def dictUpdate {V : Type} (d e : List (PyStr × V)) : List (PyStr × V) :=
  d.map (fun kv => match dictLookup e kv.1 with
    | some v => (kv.1, v)
    | none => kv)
  ++ e.filter (fun kv => !dictContains d kv.1)

/-- Embeds `d[k] = v` on a Python `dict` that does not yet bind `k`
(append) or rebinds it in place. -/
def dictSet {V : Type} (d : List (PyStr × V)) (k : PyStr) (v : V) :
    List (PyStr × V) :=
  if dictContains d k then
    d.map (fun kv => if kv.1 = k then (k, v) else kv)
  else
    d ++ [(k, v)]

/-- Embeds `"sep".join(xs)`. -/
def joinStr (sep : PyStr) : List PyStr → PyStr
  | [] => []
  | [x] => x
  | x :: y :: rest => x ++ sep ++ joinStr sep (y :: rest)

/-- Embeds `riot.utils.rmchars(chars, s)`: successively remove every
occurrence of each character of `chars` from `s`. -/
def rmchars (chars : PyStr) (s : PyStr) : PyStr :=
  chars.foldl (fun acc c => acc.filter (fun x => x ≠ c)) s

/-- Whitespace test used by Python `str.split()` (ASCII subset). -/
def isPySpace (c : Char) : Bool :=
  c = ' ' ∨ c.toNat = 9 ∨ c.toNat = 10 ∨ c.toNat = 13

/-- Helper for `pySplit`: accumulate the current word. -/
def pySplitAux : PyStr → PyStr → List PyStr
  | [], acc => if acc = [] then [] else [acc.reverse]
  | c :: rest, acc =>
    if isPySpace c then
      if acc = [] then pySplitAux rest []
      else acc.reverse :: pySplitAux rest []
    else pySplitAux rest (c :: acc)

/-- Embeds Python `s.split()` (split on runs of whitespace, no empty
words). -/
def pySplit (s : PyStr) : List PyStr := pySplitAux s []

/-- Helper for `pySplitOn`: split on one separator character, keeping
empty segments, as Python `s.split(sep)` does. -/
def pySplitOnAux (sep : Char) : PyStr → PyStr → List PyStr
  | [], acc => [acc.reverse]
  | c :: rest, acc =>
    if c = sep then acc.reverse :: pySplitOnAux sep rest []
    else pySplitOnAux sep rest (c :: acc)

/-- Embeds Python `s.split(sep)` for a single-character separator. -/
def pySplitOn (sep : Char) (s : PyStr) : List PyStr := pySplitOnAux sep s []

/-- Embeds `int(s)` for a string of decimal digits. -/
def parseNat (s : PyStr) : Nat :=
  s.foldl (fun a c => a * 10 + (c.toNat - 48)) 0

/-- Decimal digits of a natural number (fuelled so that it reduces in the
kernel); `natToDecCore (n+1) n` yields the digits of `n` for `n > 0`. -/
def natToDecCore : Nat → Nat → PyStr
  | 0, _ => []
  | f + 1, n =>
    if n = 0 then []
    else natToDecCore f (n / 10) ++ [Char.ofNat (48 + n % 10)]

/-- Embeds `str(n)` for a non-negative integer. -/
def natToDec (n : Nat) : PyStr :=
  if n = 0 then pstr "0" else natToDecCore (n + 1) n

/-- Embeds `str(n)` for a Python `int`. -/
def intToDec (n : Int) : PyStr :=
  if n < 0 then pstr "-" ++ natToDec n.natAbs else natToDec n.natAbs

/-- Lower-case hex digit for `n < 16`. -/
def hexDigit (n : Nat) : Char :=
  if n < 10 then Char.ofNat (48 + n) else Char.ofNat (87 + n)

/-- Hex digits of a natural number (fuelled for kernel reduction). -/
def natToHexCore : Nat → Nat → PyStr
  | 0, _ => []
  | f + 1, n =>
    if n = 0 then []
    else natToHexCore f (n / 16) ++ [hexDigit (n % 16)]

/-- Embeds Python `hex(n)[2:]` for `n ≥ 0`: minimal lower-case hex digits,
`"0"` for zero. -/
def natToHex (n : Nat) : PyStr :=
  if n = 0 then pstr "0" else natToHexCore (n + 1) n

/-- Embeds `riot.utils.expand_specs` (itertools.product over the value
lists of an ordered dict): the first key varies slowest, exactly as
`itertools.product` enumerates. An empty dict yields one empty
assignment. -/
def expand_specs {V : Type} : List (PyStr × List V) → List (List (PyStr × V))
  | [] => [[]]
  | (k, vs) :: rest =>
    vs.flatMap (fun v => (expand_specs rest).map (fun t => (k, v) :: t))

/-- Embeds `riot.utils.get_pep_dep(libname, version)`:
`f"{libname}{version}"`. -/
def get_pep_dep (libname version : PyStr) : PyStr := libname ++ version

/-- Embeds `riot.utils.pip_deps(pkgs)`: space-joined `'lib<version>'`
tokens, skipping entries whose version is `None`. -/
def pip_deps (pkgs : List (PyStr × Option PyStr)) : PyStr :=
  joinStr (pstr " ")
    (pkgs.filterMap (fun kv =>
      kv.2.map (fun ver => [quoteChar] ++ get_pep_dep kv.1 ver ++ [quoteChar])))

/-- Python truthiness of an optional string (`None` and `""` are falsy),
used to embed `a or b` on such values. -/
def pyOrStr (a b : Option PyStr) : Option PyStr :=
  match a with
  | some s => if s = [] then b else some s
  | none => b

/-- Interpreter resolution hints as the riotfile supplies them: a float
(carried here by its Python `str()` rendering, e.g. `3.8 ↦ "3.8"`), an
int, or a string. -/
inductive PyHint where
  | ofFloat (s : PyStr)
  | ofInt (n : Int)
  | ofStr (s : PyStr)
deriving DecidableEq

/-- Embeds `str(hint)` as `Interpreter.__post_init__` applies it. -/
def strOfHint : PyHint → PyStr
  | .ofFloat s => s
  | .ofInt n => intToDec n
  | .ofStr s => s

/-- Embeds the `Interpreter` dataclass of `riot/interpreter.py`.  Its only
dataclass field is the normalized hint string `_hint` (the `hint` argument
is an `InitVar`), so the generated `__eq__`/`__hash__` compare exactly
this field. -/
structure Interp where
  hintStr : PyStr
deriving DecidableEq

/-- Embeds the constructor call `Interpreter(hint)` including
`__post_init__`, which stores `_hint = str(hint)`. -/
def Interpreter (hint : PyHint) : Interp := ⟨strOfHint hint⟩

/-- Embeds the `Venv` dataclass of `riot/venv.py` after
`__post_init__` normalization: `pys` is the list of declared interpreters
(empty when the riotfile declared none), `pkgs` and `env` map names to
value lists, `venvs` is the child list, `create`/`skipDevInstall` are the
installation-boundary flags. -/
inductive Venv where
  | mk (pys : List Interp) (pkgs : List (PyStr × List (Option PyStr)))
       (env : List (PyStr × List PyStr)) (name command : Option PyStr)
       (venvs : List Venv) (create skipDevInstall : Bool)

/-- Declared interpreters of a spec node. -/
def Venv.pys : Venv → List Interp
  | .mk pys _ _ _ _ _ _ _ => pys

/-- Declared package-version lists of a spec node. -/
def Venv.pkgs : Venv → List (PyStr × List (Option PyStr))
  | .mk _ pkgs _ _ _ _ _ _ => pkgs

/-- Declared environment-variable value lists of a spec node. -/
def Venv.env : Venv → List (PyStr × List PyStr)
  | .mk _ _ env _ _ _ _ _ => env

/-- Declared name of a spec node. -/
def Venv.name : Venv → Option PyStr
  | .mk _ _ _ name _ _ _ _ => name

/-- Declared command of a spec node. -/
def Venv.command : Venv → Option PyStr
  | .mk _ _ _ _ command _ _ _ => command

/-- Child nodes of a spec node. -/
def Venv.venvs : Venv → List Venv
  | .mk _ _ _ _ _ venvs _ _ => venvs

/-- Installation-boundary flag of a spec node. -/
def Venv.create : Venv → Bool
  | .mk _ _ _ _ _ _ create _ => create

/-- Flag suppressing the dev-package install of a creation boundary. -/
def Venv.skipDevInstall : Venv → Bool
  | .mk _ _ _ _ _ _ _ skip => skip

/-- Embeds the `VenvInstance` dataclass of `riot/venv.py` after
`__post_init__`: `name` and `command` hold the already-resolved
(inherited) values and `pkgs` holds the own package assignment after the
ancestor-absorption step that runs when `venv.create` is set. -/
inductive VenvInstance where
  | mk (venv : Venv) (pkgs : List (PyStr × Option PyStr)) (py : Option Interp)
       (env : List (PyStr × PyStr)) (name command : Option PyStr)
       (parent : Option VenvInstance)

/-- Spec node an instance was expanded from. -/
def VenvInstance.venv : VenvInstance → Venv
  | .mk venv _ _ _ _ _ _ => venv

/-- Own package assignment of an instance. -/
def VenvInstance.pkgs : VenvInstance → List (PyStr × Option PyStr)
  | .mk _ pkgs _ _ _ _ _ => pkgs

/-- Interpreter of an instance (`None` when never declared). -/
def VenvInstance.py : VenvInstance → Option Interp
  | .mk _ _ py _ _ _ _ => py

/-- Accumulated environment-variable assignment of an instance. -/
def VenvInstance.env : VenvInstance → List (PyStr × PyStr)
  | .mk _ _ _ env _ _ _ => env

/-- Resolved name of an instance (own node's, else parent's). -/
def VenvInstance.name : VenvInstance → Option PyStr
  | .mk _ _ _ _ name _ _ => name

/-- Resolved command of an instance (own node's, else parent's). -/
def VenvInstance.command : VenvInstance → Option PyStr
  | .mk _ _ _ _ _ command _ => command

/-- Parent instance in the expansion chain. -/
def VenvInstance.parent : VenvInstance → Option VenvInstance
  | .mk _ _ _ _ _ _ parent => parent

/-- Embeds the ancestor-package absorption loop of
`VenvInstance.__post_init__` (run only when `venv.create` is set): walk
ancestors leaf-ward to root, adding each ancestor package not yet present,
and stop after the first ancestor whose node is itself a creation
boundary. -/
def absorbAncestorPkgs : VenvInstance → List (PyStr × Option PyStr) →
    List (PyStr × Option PyStr)
  | .mk venv apkgs _ _ _ _ parent, pkgs =>
    let merged := apkgs.foldl
      (fun acc kv => if dictContains acc kv.1 then acc else acc ++ [kv]) pkgs
    if venv.create then merged
    else
      match parent with
      | none => merged
      | some p => absorbAncestorPkgs p merged
termination_by structural a _ => a

/-- Embeds `VenvInstance.__init__` plus `__post_init__`: resolve `name`
and `command` through `_inherited` (own node's truthy value, else the
parent instance's resolved value) and absorb ancestor packages when the
node is a creation boundary. -/
def mkVenvInstance (venv : Venv) (pkgs : List (PyStr × Option PyStr))
    (py : Option Interp) (env : List (PyStr × PyStr))
    (parent : Option VenvInstance) : VenvInstance :=
  .mk venv
    (if venv.create then
       match parent with
       | none => pkgs
       | some a => absorbAncestorPkgs a pkgs
     else pkgs)
    py env
    (pyOrStr venv.name (parent.bind VenvInstance.name))
    (pyOrStr venv.command (parent.bind VenvInstance.command))
    parent

mutual

/-- Embeds `Venv.instances` of `riot/venv.py`: for each own-env
assignment (merged over the parent's accumulated env), each interpreter
(own list, else the parent's single choice), and each own package
assignment, build an instance; leaves yield it, inner nodes recurse into
every child with it as parent. -/
def Venv.instances (v : Venv) (parentInst : Option VenvInstance) :
    List VenvInstance :=
  match v with
  | .mk pys pkgs env name command venvs create skipDev =>
    (expand_specs env).flatMap (fun envSpec =>
      let instEnv := dictUpdate
        (match parentInst with | some p => p.env | none => []) envSpec
      let pys2 : List (Option Interp) :=
        match pys with
        | [] => [match parentInst with | some p => p.py | none => none]
        | ps => ps.map some
      pys2.flatMap (fun py =>
        (expand_specs pkgs).flatMap (fun pkgSpec =>
          let inst := mkVenvInstance
            (.mk pys pkgs env name command venvs create skipDev)
            pkgSpec py instEnv parentInst
          match venvs with
          | [] => [inst]
          | cs => Venv.instancesList cs inst)))

/-- Embeds the `for venv in self.venvs: yield from venv.instances(inst)`
loop. -/
def Venv.instancesList (cs0 : List Venv) (inst : VenvInstance) :
    List VenvInstance :=
  match cs0 with
  | [] => []
  | c :: cs => c.instances (some inst) ++ Venv.instancesList cs inst

end

/-- Ancestor chain of an instance, root first, ending at the instance
itself. -/
def VenvInstance.rootChain : VenvInstance → List VenvInstance
  | .mk venv pkgs py env name command parent =>
    (match parent with
     | none => []
     | some p => p.rootChain) ++ [.mk venv pkgs py env name command parent]
termination_by structural i => i

/-- Embeds the `chain` local of `VenvInstance.full_pkg_str`: the source
seeds the list with `[self]` and the walk loop then also inserts `self`,
so the chain is root-to-leaf with the leaf repeated. -/
def VenvInstance.chain (i : VenvInstance) : List VenvInstance :=
  i.rootChain ++ [i]

/-- Merged package dict of `VenvInstance.full_pkg_str`: successive
`dict.update` along the chain, so descendant values override ancestors on
key collision. -/
def VenvInstance.fullPkgs (i : VenvInstance) :
    List (PyStr × Option PyStr) :=
  (VenvInstance.chain i).foldl (fun acc j => dictUpdate acc j.pkgs) []

/-- Embeds `VenvInstance.full_pkg_str` of `riot/venv.py`. -/
def VenvInstance.full_pkg_str (i : VenvInstance) : PyStr :=
  pip_deps (VenvInstance.fullPkgs i)

/-! SHA-256, as `hashlib.sha256` computes it, over messages given as lists
of byte values.  32-bit words are `Nat`s reduced `% 2^32` wherever
overflow matters. -/

/-- The 32-bit modulus. -/
def w32 : Nat := 4294967296

/-- 32-bit right rotation. -/
def rotr32 (n x : Nat) : Nat := ((x >>> n) ||| (x <<< (32 - n))) % w32

/-- The 64 SHA-256 round constants. -/
def sha256K : List Nat :=
  [1116352408, 1899447441, 3049323471, 3921009573, 961987163, 1508970993,
   2453635748, 2870763221, 3624381080, 310598401, 607225278, 1426881987,
   1925078388, 2162078206, 2614888103, 3248222580, 3835390401, 4022224774,
   264347078, 604807628, 770255983, 1249150122, 1555081692, 1996064986,
   2554220882, 2821834349, 2952996808, 3210313671, 3336571891, 3584528711,
   113926993, 338241895, 666307205, 773529912, 1294757372, 1396182291,
   1695183700, 1986661051, 2177026350, 2456956037, 2730485921, 2820302411,
   3259730800, 3345764771, 3516065817, 3600352804, 4094571909, 275423344,
   430227734, 506948616, 659060556, 883997877, 958139571, 1322822218,
   1537002063, 1747873779, 1955562222, 2024104815, 2227730452, 2361852424,
   2428436474, 2756734187, 3204031479, 3329325298]

/-- The SHA-256 initial state. -/
def sha256H0 : List Nat :=
  [1779033703, 3144134277, 1013904242, 2773480762,
   1359893119, 2600822924, 528734635, 1541459225]

/-- SHA-256 sigma-0 message-schedule function. -/
def smallSigma0 (x : Nat) : Nat := (rotr32 7 x) ^^^ (rotr32 18 x) ^^^ (x >>> 3)

/-- SHA-256 sigma-1 message-schedule function. -/
def smallSigma1 (x : Nat) : Nat := (rotr32 17 x) ^^^ (rotr32 19 x) ^^^ (x >>> 10)

/-- SHA-256 Sigma-0 round function. -/
def bigSigma0 (x : Nat) : Nat := (rotr32 2 x) ^^^ (rotr32 13 x) ^^^ (rotr32 22 x)

/-- SHA-256 Sigma-1 round function. -/
def bigSigma1 (x : Nat) : Nat := (rotr32 6 x) ^^^ (rotr32 11 x) ^^^ (rotr32 25 x)

/-- SHA-256 choice function (bitwise complement taken over 32 bits). -/
def chFn (e f g : Nat) : Nat := (e &&& f) ^^^ ((4294967295 ^^^ e) &&& g)

/-- SHA-256 majority function. -/
def majFn (a b c : Nat) : Nat := (a &&& b) ^^^ (a &&& c) ^^^ (b &&& c)

/-- Extend the 16 block words to the 64-word message schedule (fuelled
with 48 steps). -/
def extendLoop : Nat → List Nat → List Nat
  | 0, ws => ws
  | f + 1, ws =>
    let n := ws.length
    let w := (smallSigma1 (ws.getD (n - 2) 0) + ws.getD (n - 7) 0 +
              smallSigma0 (ws.getD (n - 15) 0) + ws.getD (n - 16) 0) % w32
    extendLoop f (ws ++ [w])

/-- One SHA-256 compression round on the state `[a,b,c,d,e,f,g,h]`. -/
def roundFn (st : List Nat) (kw : Nat × Nat) : List Nat :=
  let a := st.getD 0 0
  let b := st.getD 1 0
  let c := st.getD 2 0
  let d := st.getD 3 0
  let e := st.getD 4 0
  let f := st.getD 5 0
  let g := st.getD 6 0
  let h := st.getD 7 0
  let t1 := (h + bigSigma1 e + chFn e f g + kw.1 + kw.2) % w32
  let t2 := (bigSigma0 a + majFn a b c) % w32
  [(t1 + t2) % w32, a, b, c, (d + t1) % w32, e, f, g]

/-- Big-endian 4-byte groups to 32-bit words. -/
def bytesToWords : List Nat → List Nat
  | b0 :: b1 :: b2 :: b3 :: rest =>
    (b0 * 16777216 + b1 * 65536 + b2 * 256 + b3) :: bytesToWords rest
  | _ => []

/-- Process one 64-byte block: 64 rounds, then add the round output to the
incoming state word-wise mod 2^32. -/
def processBlock (st : List Nat) (block : List Nat) : List Nat :=
  let ws := extendLoop 48 (bytesToWords block)
  let fin := (sha256K.zip ws).foldl roundFn st
  (st.zip fin).map (fun p => (p.1 + p.2) % w32)

/-- Split a byte list into 64-byte chunks (fuelled). -/
def chunks64 : Nat → List Nat → List (List Nat)
  | 0, _ => []
  | _, [] => []
  | f + 1, xs => xs.take 64 :: chunks64 f (xs.drop 64)

/-- SHA-256 padding: `0x80`, zeros to 56 mod 64, then the bit length as an
8-byte big-endian integer. -/
def sha256Pad (msg : List Nat) : List Nat :=
  let l := msg.length
  let k := (64 - ((l + 9) % 64)) % 64
  msg ++ [128] ++ List.replicate k 0 ++
    (List.range 8).map (fun i => ((8 * l) >>> (8 * (7 - i))) % 256)

/-- The eight 32-bit state words of the SHA-256 digest of a byte list. -/
def sha256Words (msg : List Nat) : List Nat :=
  let padded := sha256Pad msg
  (chunks64 padded.length padded).foldl processBlock sha256H0

/-- Embeds `int(sha256(msg).hexdigest(), 16)`: the digest words
concatenated big-endian into one integer. -/
def sha256Int (msg : List Nat) : Nat :=
  (sha256Words msg).foldl (fun acc w => acc * w32 + w % w32) 0

/-- UTF-8 bytes of one character, as Python `str.encode()` produces. -/
def utf8Bytes (c : Char) : List Nat :=
  let n := c.toNat
  if n < 128 then [n]
  else if n < 2048 then [192 + n / 64, 128 + n % 64]
  else if n < 65536 then
    [224 + n / 4096, 128 + (n / 64) % 64, 128 + n % 64]
  else
    [240 + n / 262144, 128 + (n / 4096) % 64, 128 + (n / 64) % 64,
     128 + n % 64]

/-- Embeds Python `s.encode()` (UTF-8). -/
def strEncode (s : PyStr) : List Nat := s.flatMap utf8Bytes

/-- CPython's Mersenne modulus `2^61 - 1` for `int.__hash__` on 64-bit
builds. -/
def pyHashModulus : Nat := 2305843009213693951

/-- Embeds what the `hash()` builtin returns when a custom `__hash__`
yields the non-negative big integer `n`: CPython reduces it with the
`int` hash, `n mod (2^61 - 1)`. -/
def pyLongHash (n : Nat) : Nat := n % pyHashModulus

/-- The quote character CPython `repr` picks for a string: an apostrophe,
or a double quote when the string contains an apostrophe but no double
quote. -/
def pyQuoteOf (s : PyStr) : Char :=
  if s.contains quoteChar ∧ ¬ s.contains dquoteChar
  then dquoteChar else quoteChar

/-- The escaping CPython `repr` applies inside the quotes (on printable
ASCII): backslashes and the chosen quote character are
backslash-escaped. -/
def pyEscape (q : Char) (s : PyStr) : PyStr :=
  s.flatMap (fun c => if c = backslashChar ∨ c = q then [backslashChar, c]
                      else [c])

/-- Embeds CPython `repr` for strings of printable ASCII characters
(outside that fragment CPython additionally emits code escapes such as
`\xNN`, which this model does not render). -/
def pyReprStr (s : PyStr) : PyStr :=
  [pyQuoteOf s] ++ pyEscape (pyQuoteOf s) s ++ [pyQuoteOf s]

/-- Embeds `repr` on an optional string (`repr(None) = "None"`). -/
def reprOptStr : Option PyStr → PyStr
  | none => pstr "None"
  | some s => pyReprStr s

/-- Embeds the dataclass-generated `repr` of `Interpreter`, which renders
its single field: `Interpreter(_hint=<repr of the hint string>)`. -/
def reprInterp (i : Interp) : PyStr :=
  pstr "Interpreter(_hint=" ++ pyReprStr i.hintStr ++ pstr ")"

/-- Embeds `repr` on an optional interpreter. -/
def reprOptInterp : Option Interp → PyStr
  | none => pstr "None"
  | some i => reprInterp i

/-- The string whose UTF-8 bytes `VenvInstance.__hash__` of `riot/venv.py`
feeds to SHA-256: `repr(self.name)`, then `repr(self.py)`, then
`self.full_pkg_str` (three `update` calls hash their concatenation). -/
def VenvInstance.hashInputStr (i : VenvInstance) : PyStr :=
  reprOptStr i.name ++ reprOptInterp i.py ++ VenvInstance.full_pkg_str i

/-- Embeds `hash(self)` for a `VenvInstance`: the SHA-256 digest integer
of the hash input, truncated by the `hash()` builtin. -/
def VenvInstance.hashValue (i : VenvInstance) : Nat :=
  pyLongHash (sha256Int (strEncode (VenvInstance.hashInputStr i)))

/-- Embeds `VenvInstance.long_hash`: `hex(hash(self))[2:]`. -/
def VenvInstance.long_hash (i : VenvInstance) : PyStr :=
  natToHex (VenvInstance.hashValue i)

/-- Embeds `VenvInstance.short_hash`: `self.long_hash[:7]`. -/
def VenvInstance.short_hash (i : VenvInstance) : PyStr :=
  (VenvInstance.long_hash i).take 7

/-- Embeds `VenvInstance.ident` of `riot/venv.py`: drop the apostrophes
from `full_pkg_str`, split on whitespace, strip `<=>.,:+@/` from each
token, and join the tokens with underscores. -/
def VenvInstance.ident (i : VenvInstance) : PyStr :=
  joinStr (pstr "_")
    ((pySplit ((VenvInstance.full_pkg_str i).filter (fun c => c ≠ quoteChar))).map
      (rmchars (pstr "<=>.,:+@/")))

/-- Ambient process state the path computations depend on: the working
directory (`Path.resolve`, `os.getcwd`, `os.path.abspath`), the process
environment, and the version string each interpreter hint resolves to
(the result of running the resolved binary, an external collaborator). -/
structure SysCtx where
  cwd : PyStr
  osEnv : List (PyStr × PyStr)
  versionOfHint : PyStr → PyStr

/-- Embeds `Interpreter.version()`: the version string reported by the
resolved interpreter binary. -/
def Interp.version (ctx : SysCtx) (i : Interp) : PyStr :=
  ctx.versionOfHint i.hintStr

/-- Embeds `Interpreter.version_info()`:
`tuple(map(int, version.split(".")))`. -/
def Interp.versionInfo (ctx : SysCtx) (i : Interp) : List Nat :=
  (pySplitOn '.' (Interp.version ctx i)).map parseNat

/-- Default of `config.riot_folder` (`riot/config.py`): `Path(".riot")`. -/
def configRiotFolder : PyStr := pstr ".riot"

/-- Default of `config.venv_prefix` (`riot/config.py`): `"venv_py"`. -/
def configVenvPfx : PyStr := pstr "venv_py"

/-- The riot folder resolved against the working directory
(`Path(".riot").resolve()`). -/
def resolvedRiotFolder (ctx : SysCtx) : PyStr :=
  ctx.cwd ++ pstr "/" ++ configRiotFolder

/-- Directory name of an interpreter's base venv:
`f"{config.venv_prefix}{version}"` with the dots dropped from the
version (`version().replace(".", "")`). -/
def Interp.baseVenvName (ctx : SysCtx) (i : Interp) : PyStr :=
  configVenvPfx ++ (Interp.version ctx i).filter (fun c => c ≠ '.')

/-- Embeds `Interpreter.base_venv_path` of `riot/interpreter.py`:
`(config.riot_folder / f"{config.venv_prefix}{version}").resolve()`. -/
def Interp.baseVenvPath (ctx : SysCtx) (i : Interp) : PyStr :=
  resolvedRiotFolder ctx ++ pstr "/" ++ Interp.baseVenvName ctx i

/-- Embeds `VenvInstance.prefix` of `riot/venv.py` (named `pfx` here):
`None` without an interpreter; otherwise the base venv path with
`"_" + ident` appended, falling back to `"_" + short_hash` when the
resulting path string is longer than 255 characters. -/
def VenvInstance.pfx (ctx : SysCtx) (i : VenvInstance) : Option PyStr :=
  match i.py with
  | none => none
  | some py =>
    let dir := resolvedRiotFolder ctx
    let base := Interp.baseVenvName ctx py
    let prefixPath :=
      dir ++ pstr "/" ++ (base ++ pstr "_" ++ VenvInstance.ident i)
    some (if 255 < prefixPath.length then
            dir ++ pstr "/" ++ (base ++ pstr "_" ++ VenvInstance.short_hash i)
          else prefixPath)

/-- The boundary-search loop of `VenvInstance.venv_path` of
`riot/venv.py`: the first ancestor (self included) whose node sets
`create` returns that ancestor's install path (`some result`); `none`
means no boundary was found. -/
def venvPathLoop (ctx : SysCtx) (i : VenvInstance) :
    Option (Option PyStr) :=
  match i with
  | .mk venv pkgs py env name command parent =>
    if venv.create then
      some (VenvInstance.pfx ctx (.mk venv pkgs py env name command parent))
    else
      match parent with
      | none => none
      | some p => venvPathLoop ctx p
termination_by structural i

/-- Embeds `VenvInstance.venv_path` of `riot/venv.py`: the nearest created
ancestor's install path, else the interpreter's base venv path, else
`None`. -/
def VenvInstance.venv_path (ctx : SysCtx) (i : VenvInstance) : Option PyStr :=
  match venvPathLoop ctx i with
  | some r => r
  | none =>
    match i.py with
    | some py => some (Interp.baseVenvPath ctx py)
    | none => none

/-! The legacy generation in `riot/riot.py` (the one `riot/cli.py` drives)
has its own `Interpreter.venv_path`, `VenvInstance.venv_path` and
`VenvInstance.site_packages_list`.  Its `VenvInstance` carries the same
(pkgs, py, env, name, command, parent) data as the embedding above and its
`Venv` has no `create` flag, so the functions are embedded on the same
instance type; they never consult the `venv` field. -/

/-- Embeds `Interpreter.venv_path` of `riot/riot.py`:
`os.path.abspath(f".riot/venv_py{version}")` with dots dropped from the
version. -/
def Interp.venvPathRiot (ctx : SysCtx) (i : Interp) : PyStr :=
  ctx.cwd ++ pstr "/" ++ pstr ".riot/venv_py" ++
    (Interp.version ctx i).filter (fun c => c ≠ '.')

/-- The `"."`-joined first two components of `version_info()`, as both
generations render `python{major}.{minor}` directory names. -/
def Interp.majMin (ctx : SysCtx) (i : Interp) : PyStr :=
  joinStr (pstr ".") (((Interp.versionInfo ctx i).take 2).map natToDec)

/-- Embeds `Interpreter.site_packages_path` of `riot/riot.py`:
`os.path.join(venv_path, "lib", f"python{version}", "site-packages")`. -/
def Interp.sitePackagesPathRiot (ctx : SysCtx) (i : Interp) : PyStr :=
  Interp.venvPathRiot ctx i ++ pstr "/lib/python" ++ Interp.majMin ctx i ++
    pstr "/site-packages"

/-- Embeds `VenvInstance.pkg_str` of `riot/riot.py`:
`pip_deps(self.pkgs)`. -/
def VenvInstance.pkg_str (i : VenvInstance) : PyStr :=
  pip_deps i.pkgs

/-- Embeds `VenvInstance.needs_venv` of `riot/riot.py`:
`bool(self.pkg_str)`. -/
def VenvInstance.needs_venv (i : VenvInstance) : Bool :=
  VenvInstance.pkg_str i ≠ []

/-- The per-package path tokens `f"{n}{rmchars('<=>.,', v)}"` of
`VenvInstance.venv_path` of `riot/riot.py`; `none` embeds the `TypeError`
that a `None` version would raise inside `rmchars`. -/
def pkgsTokensRiot : List (PyStr × Option PyStr) → Option (List PyStr)
  | [] => some []
  | (n, v) :: rest =>
    match v, pkgsTokensRiot rest with
    | some s, some ts => some ((n ++ rmchars (pstr "<=>.,") s) :: ts)
    | _, _ => none

/-- Embeds `VenvInstance.venv_path` of `riot/riot.py`: the interpreter's
venv path, extended by `_`-joined package tokens when the instance needs
its own venv. -/
def VenvInstance.venvPathRiot (ctx : SysCtx) (i : VenvInstance) :
    Option PyStr :=
  match i.py with
  | none => none
  | some py =>
    let vp := Interp.venvPathRiot ctx py
    if VenvInstance.needs_venv i then
      match pkgsTokensRiot i.pkgs with
      | some ts => some (joinStr (pstr "_") (vp :: ts))
      | none => none
    else some vp

/-- Embeds `VenvInstance.site_packages_path` of `riot/riot.py`:
`os.path.join(target, "lib", f"python{version}", "site-packages")` over
`target = self.venv_path`, `None` when the target is. -/
def VenvInstance.sitePackagesPathRiot (ctx : SysCtx) (i : VenvInstance) :
    Option PyStr :=
  match VenvInstance.venvPathRiot ctx i, i.py with
  | some target, some py =>
    some (target ++ pstr "/lib/python" ++ Interp.majMin ctx py ++
      pstr "/site-packages")
  | _, _ => none

/-- The parent-chain walk of `VenvInstance.site_packages_list` of
`riot/riot.py`: every instance on the chain that needs a venv contributes
its site-packages path, leaf first; `none` embeds the `assert` that the
path is present. -/
def spWalkRiot (ctx : SysCtx) (i : VenvInstance) : Option (List PyStr) :=
  match i with
  | .mk venv pkgs py env name command parent =>
    let self := VenvInstance.mk venv pkgs py env name command parent
    let rest := match parent with
      | none => some []
      | some p => spWalkRiot ctx p
    if VenvInstance.needs_venv self then
      match VenvInstance.sitePackagesPathRiot ctx self, rest with
      | some sp, some r => some (sp :: r)
      | _, _ => none
    else rest
termination_by structural i

/-- Embeds `VenvInstance.site_packages_list` of `riot/riot.py`:
`["", os.getcwd()]`, then the chain walk leaf-to-root, then the
interpreter's own site-packages path. -/
def VenvInstance.site_packages_list (ctx : SysCtx) (i : VenvInstance) :
    Option (List PyStr) :=
  match spWalkRiot ctx i with
  | none => none
  | some mid =>
    some (([[], ctx.cwd] : List PyStr) ++ mid ++
      (match i.py with
       | some py => [Interp.sitePackagesPathRiot ctx py]
       | none => []))

/-! Materialization (`VenvInstance.prepare` of `riot/venv.py`), embedded
as a pure function from an ambient file-system state (the set of paths
that exist on disk) to the list of external-tool invocations the call
performs.  The Python-2 bin-symlink block mutates the file system but
invokes no creation or installer tool, so it contributes no effect. -/

/-- External-tool invocations `prepare` can perform. -/
inductive PrepEffect where
  | createVenv (path : PyStr)
  | devInstall (path : PyStr)
  | compileReqs (shortHash : PyStr)
  | createDeps (path : PyStr)
  | pipInstall (pfxPath : PyStr)
deriving DecidableEq

/-- Path of the compiled requirements file
`(config.riot_folder / "requirements" / short_hash).with_suffix(".txt")`,
resolved against the working directory for the existence check. -/
def reqsFilePath (ctx : SysCtx) (shortHash : PyStr) : PyStr :=
  resolvedRiotFolder ctx ++ pstr "/requirements/" ++ shortHash ++ pstr ".txt"

/-- Replace the stored interpreter of an instance; embeds the
`self.py = py = py or self.py` propagation at the top of `prepare`. -/
def VenvInstance.withPy (i : VenvInstance) (py : Option Interp) :
    VenvInstance :=
  match i with
  | .mk venv pkgs _ env name command parent =>
    .mk venv pkgs py env name command parent

/-- Embeds `VenvInstance.prepare` of `riot/venv.py` as the list of
external-tool invocations it performs against the file-system state `fs`
(the list of existing paths).  `VirtualEnv.create` skips the `virtualenv`
invocation when its path already exists (its `force` argument is left at
`False` by `prepare`), and the recursive call on the parent passes
`recreate`/`recompile_reqs` back to their `False` defaults. -/
def prepareBranchEffects (ctx : SysCtx) (fs : List PyStr)
    (self : VenvInstance) (recompile : Bool) : List PrepEffect :=
  match VenvInstance.venv_path ctx self with
  | none => []
  | some venvPath =>
    (if (VenvInstance.venv self).create then
      (if fs.contains venvPath then [] else [.createVenv venvPath]) ++
      (if (VenvInstance.venv self).skipDevInstall then []
       else [.devInstall venvPath])
    else []) ++
    (if recompile ∨ ¬ fs.contains
        (reqsFilePath ctx (VenvInstance.short_hash self)) then
      [.compileReqs (VenvInstance.short_hash self)]
    else []) ++
    (if (VenvInstance.venv self).create then []
     else
      (if fs.contains (venvPath ++ pstr "_deps") then []
       else [.createDeps (venvPath ++ pstr "_deps")])) ++
    (match VenvInstance.pfx ctx self with
     | some p => [.pipInstall p]
     | none => [])

/-- The guard of the creation/install branch of `prepare`:
`py is not None and self.prefix is not None and (not self.prefix.exists()
or recreate or recompile_reqs) and not child_was_installed`, where
`recreate` was forced on by `recompile_reqs`. -/
def prepareDoInstall (ctx : SysCtx) (fs : List PyStr) (self : VenvInstance)
    (recreate0 recompile child : Bool) : Bool :=
  (VenvInstance.py self).isSome && (VenvInstance.pfx ctx self).isSome &&
    (!(match VenvInstance.pfx ctx self with
       | some p => fs.contains p
       | none => false) ||
     (if recompile then true else recreate0) || recompile) && !child

def VenvInstance.prepare (ctx : SysCtx) (fs : List PyStr)
    (i : VenvInstance) (pyArg : Option Interp)
    (recreate0 recompile child : Bool) : List PrepEffect :=
  match i with
  | .mk venv pkgs py0 env name command parent =>
    let py := match pyArg with
      | some p => some p
      | none => py0
    let self := VenvInstance.mk venv pkgs py env name command parent
    (if prepareDoInstall ctx fs self recreate0 recompile child then
      prepareBranchEffects ctx fs self recompile
     else []) ++
    (if venv.create then []
     else
      match parent with
      | none => []
      | some par =>
        VenvInstance.prepare ctx fs par py false false
          (prepareDoInstall ctx fs self recreate0 recompile child ||
           (match VenvInstance.pfx ctx self with
            | some p => fs.contains p
            | none => false) || child))
termination_by structural i

/-- Embeds `Interpreter.create_venv` of `riot/riot.py` as its effect: no
invocation when the venv directory exists and `recreate` is false,
otherwise one `virtualenv` run. -/
def Interp.create_venv (ctx : SysCtx) (fs : List PyStr) (i : Interp)
    (recreate : Bool) : List PrepEffect :=
  if fs.contains (Interp.venvPathRiot ctx i) ∧ ¬ recreate then []
  else [.createVenv (Interp.venvPathRiot ctx i)]

/-! The execution-runner filters and the exit decision of `Session.run`
(`riot/riot.py`).  Regex patterns are embedded as predicates on strings
(`pattern.match` / `venv_pattern.search`), and interpreter resolution is
assumed to succeed (the `FileNotFoundError` path is driven by the host
file system, an external collaborator). -/

/-- Embeds the skip chain at the top of the `Session.run` loop of
`riot/riot.py` on an already-expanded instance list: drop instances
without a command, drop named instances whose (truthy) name fails the
name pattern, fail (`assert inst.py is not None`) on a surviving
instance with no interpreter, drop instances whose interpreter is
filtered out by `pythons`, and drop instances whose venv path fails the
venv pattern. -/
def runSelect (ctx : SysCtx) (p vp : PyStr → Bool)
    (pythons : Option (List Interp)) :
    List VenvInstance → Option (List VenvInstance)
  | [] => some []
  | i :: rest =>
    let restSel := runSelect ctx p vp pythons rest
    let nameSkip : Bool := match i.name with
      | some n => !n.isEmpty && !(p n)
      | none => false
    if i.command = none then restSel
    else if nameSkip then restSel
    else
      match i.py with
      | none => none
      | some py =>
        let pySkip : Bool := match pythons with
          | some ps => !ps.isEmpty && !(ps.contains py)
          | none => false
        if pySkip then restSel
        else
          match VenvInstance.venvPathRiot ctx i with
          | none => none
          | some vpath =>
            if !(vp vpath) then restSel
            else Option.map (fun l => i :: l) restSel

/-- The instances `Session.run` actually executes for a spec tree: the
full expansion, passed through the skip chain. -/
def Session.selected (ctx : SysCtx) (p vp : PyStr → Bool)
    (pythons : Option (List Interp)) (venv : Venv) :
    Option (List VenvInstance) :=
  runSelect ctx p vp pythons (venv.instances none)

/-- Embeds the `VenvInstanceResult` dataclass of `riot/riot.py`. -/
structure RVenvInstanceResult where
  inst : VenvInstance
  venv_name : PyStr
  pkgstr : PyStr
  code : Int := 1
  output : PyStr := []

/-- Embeds the failure count of the `Session.run` summary loop. -/
def numFailed (results : List RVenvInstanceResult) : Nat :=
  (results.filter (fun r => decide (r.code ≠ 0))).length

/-- Embeds the pass count of the `Session.run` summary loop. -/
def numPassed (results : List RVenvInstanceResult) : Nat :=
  (results.filter (fun r => decide (r.code = 0))).length

/-- Embeds the final exit decision of `Session.run`:
`if any(True for r in results if r.code != 0): sys.exit(1)`; `some 1`
is the forced non-zero exit, `none` the normal return. -/
def Session.runExitStatus (results : List RVenvInstanceResult) :
    Option Nat :=
  if results.any (fun r => decide (r.code ≠ 0)) then some 1 else none

/-- Embeds `_ALWAYS_PASS_ENV` of `riot/utils.py` (a set literal; the
fold below inserts pairwise-distinct keys, so the iteration order a
Python set would use cannot change the result). -/
def alwaysPassEnv : List PyStr :=
  [pstr "LANG", pstr "LANGUAGE", pstr "SSL_CERT_FILE", pstr "HTTP_PROXY",
   pstr "HTTPS_PROXY", pstr "NO_PROXY", pstr "PIP_INDEX_URL", pstr "PATH"]

/-- Embeds the environment preparation of `run_cmd_venv` of
`riot/utils.py` (identical in `Session.run_cmd_venv` of `riot/riot.py`):
copy the caller's env (`{}` when `None`) and, for each allow-list key
present in the process environment but absent from the copy, inject the
process value. -/
def runCmdVenvEnv (osEnv : List (PyStr × PyStr))
    (env : Option (List (PyStr × PyStr))) : List (PyStr × PyStr) :=
  let e := match env with
    | none => []
    | some m => m
  alwaysPassEnv.foldl (fun acc k =>
    match dictLookup osEnv k with
    | some v => if dictContains acc k then acc else dictSet acc k v
    | none => acc) e

/-! Spec-side definitions, following the wording of the specification for
the refinement-style claims, and concrete fixtures used by witnesses and
counterexamples. -/

/-- Spec wording (§3 invariants): the merged package map of an instance is
the union of own package assignments walked root-to-leaf, the descendant
value overriding the ancestor's on key collision.  Rendered as the lookup
the walk produces for one key: the last own binding along the
root-to-leaf chain. -/
def specMergedLookup (i : VenvInstance) (k : PyStr) : Option (Option PyStr) :=
  (VenvInstance.rootChain i).foldl
    (fun acc j => match dictLookup (VenvInstance.pkgs j) k with
      | some v => some v
      | none => acc) none

/-- Spec wording (§8): the number of env-variable value combinations of a
node is the product of the lengths of its own value lists (empty map
counting as 1). -/
def envCombos (v : Venv) : Nat :=
  (v.env.map (fun kv => kv.2.length)).prod

/-- Spec wording (§8): the number of package-version combinations of a
node. -/
def pkgCombos (v : Venv) : Nat :=
  (v.pkgs.map (fun kv => kv.2.length)).prod

/-- Spec wording (§8): the number of declared interpreters of a node, or 1
when the node inherits the parent's interpreter. -/
def interpCount (v : Venv) : Nat :=
  if v.pys.isEmpty then 1 else v.pys.length

/-- The per-node factor of the spec's instance-count formula. -/
def nodeFactor (v : Venv) : Nat :=
  envCombos v * interpCount v * pkgCombos v

mutual

/-- All root-to-leaf paths of a spec tree, each as the list of traversed
nodes. -/
def Venv.leafPaths : Venv → List (List Venv)
  | .mk pys pkgs env name command venvs create skipDev =>
    match venvs with
    | [] => [[Venv.mk pys pkgs env name command [] create skipDev]]
    | c :: cs =>
      (Venv.leafPathsList (c :: cs)).map
        (fun p => Venv.mk pys pkgs env name command (c :: cs) create skipDev :: p)

/-- Root-to-leaf paths of a forest of child nodes, in declaration
order. -/
def Venv.leafPathsList : List Venv → List (List Venv)
  | [] => []
  | c :: cs => c.leafPaths ++ Venv.leafPathsList cs

end

/-- Spec wording (§8): the sum, over root-to-leaf paths, of the product of
the per-node factors along each path. -/
def specInstanceCount (v : Venv) : Nat :=
  ((Venv.leafPaths v).map (fun p => (p.map nodeFactor).prod)).sum

/-- Instance count contributed below a node: 1 at a leaf, otherwise the
sum of the child counts (the `yield from` loop over `self.venvs`). -/
def childSum (venvs : List Venv) : Nat :=
  match venvs with
  | [] => 1
  | cs => (cs.map specInstanceCount).sum

/-- All characters printable ASCII (codes 32–126): the fragment on which
`pyReprStr` is a faithful model of CPython `repr` (outside it CPython
additionally emits `\\xNN`-style escapes). -/
def printableStr (s : PyStr) : Bool :=
  s.all (fun c => 32 ≤ c.toNat ∧ c.toNat ≤ 126)

/-- Left inverse of the escaping inside `pyReprStr`: drop one backslash
before each escaped character. -/
def pyUnescape : PyStr → PyStr
  | [] => []
  | [c] => [c]
  | c :: d :: rest =>
    if c = backslashChar then d :: pyUnescape rest
    else c :: pyUnescape (d :: rest)

/-- A spec node with no declarations at all, used to build concrete
instances. -/
def plainVenv : Venv := .mk [] [] [] none none [] false false

/-- A family of parent-less instances whose merged package string has
length `n + 2` (package name `a…a`, empty version constraint): the
domain of the pigeonhole argument on the truncated hash. -/
def c3FamilyInst (n : Nat) : VenvInstance :=
  .mk plainVenv [(List.replicate n 'a', some [])] none [] none none none

/-- The truncated hash of the family above, as an element of the finite
type `Fin (2^61 - 1)`. -/
def c3HashFam (n : Nat) : Fin pyHashModulus :=
  ⟨VenvInstance.hashValue (c3FamilyInst n), by
    simp only [VenvInstance.hashValue, pyLongHash]
    exact Nat.mod_lt _ (by decide)⟩

/-- Working directory, empty process env and a fixed `3.8.0` interpreter
resolution: the ambient state used by concrete witnesses. -/
def ctxDemo : SysCtx := ⟨pstr "/cw", [], fun _ => pstr "3.8.0"⟩

/-- Ambient state with a 300-character working directory, which pushes
every package-derived install path over the 255-character limit. -/
def c6Ctx : SysCtx := ⟨List.replicate 300 'x', [], fun _ => pstr "3.8.0"⟩

/-- A one-package leaf instance with interpreter hint `"3"`. -/
def onePkgInst : VenvInstance :=
  .mk plainVenv [(pstr "p", some (pstr "==1.0"))] (some ⟨pstr "3"⟩) []
    none none none

/-- Parent of the concrete 2-level chain used by the PYTHONPATH witness:
declares one package and the interpreter hint `"3"`. -/
def c4Parent : VenvInstance :=
  .mk plainVenv [(pstr "q", some (pstr "==2.0"))] (some ⟨pstr "3"⟩) []
    (some (pstr "par")) (some (pstr "cmd")) none

/-- Leaf of the concrete 2-level chain used by the PYTHONPATH witness. -/
def c4Child : VenvInstance :=
  .mk plainVenv [(pstr "p", some (pstr "==1.0"))] (some ⟨pstr "3"⟩) []
    (some (pstr "ch")) (some (pstr "cmd")) (some c4Parent)

/-- Concrete spec tree whose root is named `a` and whose only child
overrides the name to `b`: the child declares the interpreter, the root
declares the command. -/
def c7Tree : Venv :=
  .mk [] [] [] (some (pstr "a")) (some (pstr "run"))
    [.mk [⟨pstr "3"⟩] [] [] (some (pstr "b")) none [] false false]
    false false

/-- Name pattern matching exactly `b`, for the pruning counterexample. -/
def c7Pattern (s : PyStr) : Bool := s = pstr "b"

/-- The single instance the expansion of `c7Tree` produces: the leaf of
the child node, with the name overridden to `b` and the command inherited
from the root. -/
def c7Inst : VenvInstance :=
  mkVenvInstance
    (Venv.mk [⟨pstr "3"⟩] [] [] (some (pstr "b")) none [] false false)
    [] (some ⟨pstr "3"⟩) []
    (some (mkVenvInstance c7Tree [] none [] none))

example :
    expand_specs [(pstr "x", [pstr "x0", pstr "x1"]),
                  (pstr "y", [pstr "y0", pstr "y1"])] =
      [[(pstr "x", pstr "x0"), (pstr "y", pstr "y0")],
       [(pstr "x", pstr "x0"), (pstr "y", pstr "y1")],
       [(pstr "x", pstr "x1"), (pstr "y", pstr "y0")],
       [(pstr "x", pstr "x1"), (pstr "y", pstr "y1")]] := by decide

example :
    pip_deps [(pstr "riot", some (pstr "==0.2.0"))] = pstr "'riot==0.2.0'" := by
  decide

example : rmchars (pstr ">=<.") (pstr ">=2.0") = pstr "20" := by decide


/-! Helper lemmas about the dict embedding. -/

theorem dictLookup_append {V : Type} (d e : List (PyStr × V)) (k : PyStr) :
    dictLookup (d ++ e) k =
      match dictLookup d k with
      | some v => some v
      | none => dictLookup e k := by
  induction d with
  | nil => simp [dictLookup]
  | cons hd tl ih =>
    obtain ⟨k1, v1⟩ := hd
    by_cases h : k1 = k <;> simp [dictLookup, h, ih]

theorem dictContains_eq_isSome {V : Type} (d : List (PyStr × V)) (k : PyStr) :
    dictContains d k = (dictLookup d k).isSome := by
  induction d with
  | nil => simp [dictContains, dictLookup]
  | cons hd tl ih =>
    obtain ⟨k1, v1⟩ := hd
    by_cases h : k1 = k <;> simp [dictContains, dictLookup, h, ih]

theorem dictLookup_map_update {V : Type} (d e : List (PyStr × V)) (k : PyStr) :
    dictLookup
      (d.map (fun kv => match dictLookup e kv.1 with
        | some v => (kv.1, v)
        | none => kv)) k =
      match dictLookup d k with
      | some v => some ((dictLookup e k).getD v)
      | none => none := by
  induction d with
  | nil => simp [dictLookup]
  | cons hd tl ih =>
    obtain ⟨k1, v1⟩ := hd
    by_cases h : k1 = k
    · subst h
      cases hlook : dictLookup e k1 <;> simp [dictLookup, hlook]
    · cases hlook : dictLookup e k1 <;> simp [dictLookup, h, hlook, ih]

theorem dictLookup_filter_notin {V : Type} (d e : List (PyStr × V))
    (k : PyStr) (h : dictContains d k = false) :
    dictLookup (e.filter (fun kv => !dictContains d kv.1)) k =
      dictLookup e k := by
  induction e with
  | nil => simp [dictLookup]
  | cons hd tl ih =>
    obtain ⟨k1, v1⟩ := hd
    by_cases hk : k1 = k
    · subst hk
      simp [List.filter_cons, h, dictLookup]
    · by_cases hc : dictContains d k1 <;>
        simp [List.filter_cons, hc, dictLookup, hk, ih]

theorem dictLookup_update {V : Type} (d e : List (PyStr × V)) (k : PyStr) :
    dictLookup (dictUpdate d e) k =
      match dictLookup e k with
      | some v => some v
      | none => dictLookup d k := by
  unfold dictUpdate
  rw [dictLookup_append, dictLookup_map_update]
  cases hd : dictLookup d k with
  | some v => cases he : dictLookup e k <;> simp [he]
  | none =>
    have hc : dictContains d k = false := by
      rw [dictContains_eq_isSome, hd]; rfl
    rw [dictLookup_filter_notin _ _ _ hc]
    cases he : dictLookup e k <;> simp [he]

theorem dictLookup_foldl_update (js : List VenvInstance)
    (acc : List (PyStr × Option PyStr)) (k : PyStr) :
    dictLookup (js.foldl (fun a j => dictUpdate a (VenvInstance.pkgs j)) acc) k =
      js.foldl (fun a j => match dictLookup (VenvInstance.pkgs j) k with
        | some v => some v
        | none => a) (dictLookup acc k) := by
  induction js generalizing acc with
  | nil => rfl
  | cons j js ih =>
    simp only [List.foldl_cons]
    rw [ih, dictLookup_update]
    cases dictLookup (VenvInstance.pkgs j) k <;> rfl

theorem rootChain_eq (venv : Venv) (pkgs : List (PyStr × Option PyStr))
    (py : Option Interp) (env : List (PyStr × PyStr))
    (name command : Option PyStr) (parent : Option VenvInstance) :
    VenvInstance.rootChain (.mk venv pkgs py env name command parent) =
      (match parent with
       | none => []
       | some p => VenvInstance.rootChain p) ++
      [VenvInstance.mk venv pkgs py env name command parent] := by
  rw [VenvInstance.rootChain.eq_def]

/-- C2: for the 2-level chain with parent `{A: "1"}` and child
`{A: "2", B: "1"}` the merged package map is `{A: "2", B: "1"}`, and in
general the merged map built by `full_pkg_str` binds each key to the last
own binding along the root-to-leaf ancestor chain (descendant overrides
ancestor, union otherwise). -/
theorem full_pkg_str_merge_spec :
    (∀ (i : VenvInstance) (k : PyStr),
        dictLookup (VenvInstance.fullPkgs i) k = specMergedLookup i k) ∧
    VenvInstance.fullPkgs
        (VenvInstance.mk plainVenv
          [(pstr "A", some (pstr "2")), (pstr "B", some (pstr "1"))]
          none [] none none
          (some (VenvInstance.mk plainVenv [(pstr "A", some (pstr "1"))]
            none [] none none none))) =
      [(pstr "A", some (pstr "2")), (pstr "B", some (pstr "1"))] := by
  refine ⟨fun i k => ?_, by decide⟩
  cases i with
  | mk venv pkgs py env name command parent =>
    unfold VenvInstance.fullPkgs VenvInstance.chain specMergedLookup
    rw [dictLookup_foldl_update, rootChain_eq]
    simp only [List.foldl_append, List.foldl_cons, List.foldl_nil]
    have h0 : dictLookup ([] : List (PyStr × Option PyStr)) k = none := rfl
    rw [h0]
    have hp : VenvInstance.pkgs
        (VenvInstance.mk venv pkgs py env name command parent) = pkgs := rfl
    rw [hp]
    cases hl : dictLookup pkgs k <;> simp [hl]

/-- C9: two `Interpreter` values compare equal exactly when the string
normalizations of their hints agree (the dataclass equality and hash are
generated over the sole field `_hint`, so equal values also hash equal and
deduplicate in sets, independent of any resolved executable path); in
particular the float hint `3.8` and the string hint `"3.8"` yield equal
interpreters. -/
theorem interpreter_eq_iff_hint_eq :
    (∀ h1 h2 : PyHint,
        Interpreter h1 = Interpreter h2 ↔ strOfHint h1 = strOfHint h2) ∧
    Interpreter (.ofFloat (pstr "3.8")) = Interpreter (.ofStr (pstr "3.8")) := by
  refine ⟨fun h1 h2 => ?_, by decide⟩
  unfold Interpreter
  exact ⟨fun h => congrArg Interp.hintStr h, fun h => congrArg Interp.mk h⟩

/-- C8: after the run loop, `Session.run` forces exit status 1 exactly
when some collected result has a non-zero code, returns normally exactly
when every collected result passed, and the forced exit coincides with a
positive failure count in the printed summary, whose pass and failure
counts partition the results. -/
theorem run_exit_iff_any_failure (results : List RVenvInstanceResult) :
    (Session.runExitStatus results = some 1 ↔ ∃ r ∈ results, r.code ≠ 0) ∧
    (Session.runExitStatus results = none ↔ ∀ r ∈ results, r.code = 0) ∧
    (0 < numFailed results ↔ Session.runExitStatus results = some 1) ∧
    numPassed results + numFailed results = results.length := by
  have hiff : results.any (fun r => decide (r.code ≠ 0)) = true ↔
      ∃ r ∈ results, r.code ≠ 0 := by
    simp [List.any_eq_true]
  have hexit : Session.runExitStatus results = some 1 ↔
      ∃ r ∈ results, r.code ≠ 0 := by
    unfold Session.runExitStatus
    by_cases h : results.any (fun r => decide (r.code ≠ 0)) = true
    · rw [if_pos h]
      exact ⟨fun _ => hiff.mp h, fun _ => rfl⟩
    · rw [if_neg h]
      exact ⟨fun hc => Option.noConfusion hc,
             fun hex => absurd (hiff.mpr hex) h⟩
  refine ⟨hexit, ?_, ?_, ?_⟩
  · unfold Session.runExitStatus
    by_cases h : results.any (fun r => decide (r.code ≠ 0)) = true
    · rw [if_pos h]
      obtain ⟨r, hr, hne⟩ := hiff.mp h
      exact ⟨fun hc => Option.noConfusion hc,
             fun hall => absurd (hall r hr) hne⟩
    · rw [if_neg h]
      refine ⟨fun _ r hr => ?_, fun _ => rfl⟩
      by_contra hc
      exact h (hiff.mpr ⟨r, hr, hc⟩)
  · have h3 : 0 < numFailed results ↔ ∃ r ∈ results, r.code ≠ 0 := by
      unfold numFailed
      rw [← List.countP_eq_length_filter, List.countP_pos_iff]
      simp
    exact h3.trans hexit.symm
  · clear hiff hexit
    unfold numPassed numFailed
    induction results with
    | nil => rfl
    | cons r rs ih =>
      by_cases h : r.code = 0
      · have h1 : (decide (r.code = 0)) = true := by simp [h]
        have h2 : (decide (r.code ≠ 0)) = false := by simp [h]
        simp only [List.filter_cons, h1, h2, if_true, if_false,
          Bool.false_eq_true, List.length_cons]
        omega
      · have h1 : (decide (r.code = 0)) = false := by simp [h]
        have h2 : (decide (r.code ≠ 0)) = true := by simp [h]
        simp only [List.filter_cons, h1, h2, if_true, if_false,
          Bool.false_eq_true, List.length_cons]
        omega

/-! Lemmas about the allow-list environment fold of `run_cmd_venv`. -/

theorem passEnvFold_lookup_mem (osEnv : List (PyStr × PyStr))
    (ks : List PyStr) (acc : List (PyStr × PyStr)) (k : PyStr)
    (h : dictContains acc k = true) :
    dictLookup
      (ks.foldl (fun acc k =>
        match dictLookup osEnv k with
        | some v => if dictContains acc k then acc else dictSet acc k v
        | none => acc) acc) k = dictLookup acc k := by
  induction ks generalizing acc with
  | nil => rfl
  | cons k1 ks ih =>
    simp only [List.foldl_cons]
    cases hv : dictLookup osEnv k1 with
    | none => exact ih acc h
    | some v =>
      by_cases hc : dictContains acc k1
      · simp only [hc, if_true]
        exact ih acc h
      · have hc' : dictContains acc k1 = false := by
          simpa using hc
        have hset : dictSet acc k1 v = acc ++ [(k1, v)] := by
          unfold dictSet
          rw [hc']
          simp
        have hne : k1 ≠ k := by
          intro he
          rw [he, h] at hc'
          cases hc'
        have hlk : dictLookup (acc ++ [(k1, v)]) k = dictLookup acc k := by
          rw [dictLookup_append]
          rw [dictContains_eq_isSome] at h
          cases hl : dictLookup acc k with
          | some w => rfl
          | none => rw [hl] at h; cases h
        have hck : dictContains (acc ++ [(k1, v)]) k = true := by
          rw [dictContains_eq_isSome, hlk]
          rw [dictContains_eq_isSome] at h
          exact h
        simp only [hc', if_false, Bool.false_eq_true, hset]
        rw [ih _ hck, hlk]

theorem passEnvFold_lookup_absent (osEnv : List (PyStr × PyStr))
    (ks : List PyStr) (acc : List (PyStr × PyStr)) (k : PyStr)
    (h : dictContains acc k = false) (hk : k ∉ ks) :
    dictLookup
      (ks.foldl (fun acc k =>
        match dictLookup osEnv k with
        | some v => if dictContains acc k then acc else dictSet acc k v
        | none => acc) acc) k = none := by
  induction ks generalizing acc with
  | nil =>
    simp only [List.foldl_nil]
    rw [dictContains_eq_isSome] at h
    cases hl : dictLookup acc k with
    | some w => rw [hl] at h; cases h
    | none => rfl
  | cons k1 ks ih =>
    have hne : k1 ≠ k := fun he => hk (he ▸ List.mem_cons_self k1 ks)
    have hk' : k ∉ ks := fun hm => hk (List.mem_cons_of_mem _ hm)
    simp only [List.foldl_cons]
    cases hv : dictLookup osEnv k1 with
    | none => exact ih acc h hk'
    | some v =>
      by_cases hc : dictContains acc k1
      · simp only [hc, if_true]
        exact ih acc h hk'
      · have hc' : dictContains acc k1 = false := by simpa using hc
        have hset : dictSet acc k1 v = acc ++ [(k1, v)] := by
          unfold dictSet
          rw [hc']
          simp
        have hca : dictContains (acc ++ [(k1, v)]) k = false := by
          rw [dictContains_eq_isSome, dictLookup_append]
          rw [dictContains_eq_isSome] at h
          cases hl : dictLookup acc k with
          | some w => rw [hl] at h; cases h
          | none => simp [dictLookup, hne]
        simp only [hc', if_false, Bool.false_eq_true, hset]
        exact ih _ hca hk'

theorem passEnvFold_lookup_os_none (osEnv : List (PyStr × PyStr))
    (ks : List PyStr) (acc : List (PyStr × PyStr)) (k : PyStr)
    (h : dictContains acc k = false) (hos : dictLookup osEnv k = none) :
    dictLookup
      (ks.foldl (fun acc k =>
        match dictLookup osEnv k with
        | some v => if dictContains acc k then acc else dictSet acc k v
        | none => acc) acc) k = none := by
  induction ks generalizing acc with
  | nil =>
    simp only [List.foldl_nil]
    rw [dictContains_eq_isSome] at h
    cases hl : dictLookup acc k with
    | some w => rw [hl] at h; cases h
    | none => rfl
  | cons k1 ks ih =>
    simp only [List.foldl_cons]
    by_cases he : k1 = k
    · subst he
      rw [hos]
      exact ih acc h
    · cases hv : dictLookup osEnv k1 with
      | none => exact ih acc h
      | some v =>
        by_cases hc : dictContains acc k1
        · simp only [hc, if_true]
          exact ih acc h
        · have hc' : dictContains acc k1 = false := by simpa using hc
          have hset : dictSet acc k1 v = acc ++ [(k1, v)] := by
            unfold dictSet
            rw [hc']
            simp
          have hca : dictContains (acc ++ [(k1, v)]) k = false := by
            rw [dictContains_eq_isSome, dictLookup_append]
            rw [dictContains_eq_isSome] at h
            cases hl : dictLookup acc k with
            | some w => rw [hl] at h; cases h
            | none => simp [dictLookup, he]
          simp only [hc', if_false, Bool.false_eq_true, hset]
          exact ih _ hca

theorem passEnvFold_lookup_inject (osEnv : List (PyStr × PyStr))
    (ks : List PyStr) (acc : List (PyStr × PyStr)) (k : PyStr) (v : PyStr)
    (h : dictContains acc k = false) (hk : k ∈ ks)
    (hos : dictLookup osEnv k = some v) :
    dictLookup
      (ks.foldl (fun acc k =>
        match dictLookup osEnv k with
        | some v => if dictContains acc k then acc else dictSet acc k v
        | none => acc) acc) k = some v := by
  induction ks generalizing acc with
  | nil => cases hk
  | cons k1 ks ih =>
    simp only [List.foldl_cons]
    by_cases he : k1 = k
    · subst he
      rw [hos]
      simp only [h, if_false, Bool.false_eq_true]
      have hset : dictSet acc k1 v = acc ++ [(k1, v)] := by
        unfold dictSet
        rw [h]
        simp
      have hlk : dictLookup (acc ++ [(k1, v)]) k1 = some v := by
        rw [dictLookup_append]
        rw [dictContains_eq_isSome] at h
        cases hl : dictLookup acc k1 with
        | some w => rw [hl] at h; cases h
        | none => simp [dictLookup]
      have hck : dictContains (acc ++ [(k1, v)]) k1 = true := by
        rw [dictContains_eq_isSome, hlk]
        rfl
      rw [hset, passEnvFold_lookup_mem osEnv ks _ k1 hck, hlk]
    · have hk' : k ∈ ks := by
        cases List.mem_cons.mp hk with
        | inl h0 => exact absurd h0.symm he
        | inr h0 => exact h0
      cases hv : dictLookup osEnv k1 with
      | none => exact ih acc h hk'
      | some w =>
        by_cases hc : dictContains acc k1
        · simp only [hc, if_true]
          exact ih acc h hk'
        · have hc' : dictContains acc k1 = false := by simpa using hc
          have hset : dictSet acc k1 w = acc ++ [(k1, w)] := by
            unfold dictSet
            rw [hc']
            simp
          have hca : dictContains (acc ++ [(k1, w)]) k = false := by
            rw [dictContains_eq_isSome, dictLookup_append]
            rw [dictContains_eq_isSome] at h
            cases hl : dictLookup acc k with
            | some u => rw [hl] at h; cases h
            | none => simp [dictLookup, he]
          simp only [hc', if_false, Bool.false_eq_true, hset]
          exact ih _ hca hk'

/-- C10: running a command in a venv never overrides a caller-supplied
environment variable: every key of the caller's map keeps its value in
the environment `run_cmd_venv` builds, an allow-list key absent from the
caller's map receives exactly the process-environment value (when the
process defines it), and no other key is added.  The build mutates a
fresh copy (`env.copy()`), so the caller's map itself — a separate value
in this embedding — is untouched. -/
theorem run_cmd_venv_env_preserves (osEnv env : List (PyStr × PyStr))
    (k : PyStr) :
    (dictContains env k = true →
      dictLookup (runCmdVenvEnv osEnv (some env)) k = dictLookup env k) ∧
    (dictContains env k = false → k ∈ alwaysPassEnv →
      dictLookup (runCmdVenvEnv osEnv (some env)) k = dictLookup osEnv k) ∧
    (dictContains env k = false → k ∉ alwaysPassEnv →
      dictLookup (runCmdVenvEnv osEnv (some env)) k = none) := by
  refine ⟨?_, ?_, ?_⟩
  · intro h
    exact passEnvFold_lookup_mem osEnv alwaysPassEnv env k h
  · intro h hk
    cases hos : dictLookup osEnv k with
    | some v => exact passEnvFold_lookup_inject osEnv alwaysPassEnv env k v h hk hos
    | none => exact passEnvFold_lookup_os_none osEnv alwaysPassEnv env k h hos
  · intro h hk
    exact passEnvFold_lookup_absent osEnv alwaysPassEnv env k h hk

/-- Witness for C10 at concrete maps: the caller's `PATH` survives, the
absent allow-list key `LANG` is injected from the process environment,
and the unrelated absent key `FOO` stays absent. -/
theorem run_cmd_venv_env_preserves_witness :
    dictLookup
        (runCmdVenvEnv [(pstr "LANG", pstr "C"), (pstr "FOO", pstr "1")]
          (some [(pstr "PATH", pstr "/bin")])) (pstr "PATH") =
      some (pstr "/bin") ∧
    dictLookup
        (runCmdVenvEnv [(pstr "LANG", pstr "C"), (pstr "FOO", pstr "1")]
          (some [(pstr "PATH", pstr "/bin")])) (pstr "LANG") =
      some (pstr "C") ∧
    dictLookup
        (runCmdVenvEnv [(pstr "LANG", pstr "C"), (pstr "FOO", pstr "1")]
          (some [(pstr "PATH", pstr "/bin")])) (pstr "FOO") = none := by
  refine ⟨?_, ?_, ?_⟩
  · have h := (run_cmd_venv_env_preserves
      [(pstr "LANG", pstr "C"), (pstr "FOO", pstr "1")]
      [(pstr "PATH", pstr "/bin")] (pstr "PATH")).1 (by decide)
    rw [h]
    decide
  · have h := (run_cmd_venv_env_preserves
      [(pstr "LANG", pstr "C"), (pstr "FOO", pstr "1")]
      [(pstr "PATH", pstr "/bin")] (pstr "LANG")).2.1 (by decide) (by decide)
    rw [h]
    decide
  · exact (run_cmd_venv_env_preserves
      [(pstr "LANG", pstr "C"), (pstr "FOO", pstr "1")]
      [(pstr "PATH", pstr "/bin")] (pstr "FOO")).2.2 (by decide) (by decide)

/-! Materialization idempotence. -/

theorem prepareDoInstall_child (ctx : SysCtx) (fs : List PyStr)
    (self : VenvInstance) (recreate0 recompile : Bool) :
    prepareDoInstall ctx fs self recreate0 recompile true = false := by
  unfold prepareDoInstall
  simp

theorem prepareDoInstall_exists (ctx : SysCtx) (fs : List PyStr)
    (self : VenvInstance) (p : PyStr) (child : Bool)
    (hpfx : VenvInstance.pfx ctx self = some p)
    (hfs : fs.contains p = true) :
    prepareDoInstall ctx fs self false false child = false := by
  unfold prepareDoInstall
  rw [hpfx]
  simp only [hfs]
  simp

theorem prepare_child_installed_noop (ctx : SysCtx) (fs : List PyStr) :
    ∀ (i : VenvInstance) (py : Option Interp),
      VenvInstance.prepare ctx fs i py false false true = []
  | .mk venv pkgs py0 env name command parent, pyArg => by
    cases parent with
    | none =>
      cases pyArg <;> rw [VenvInstance.prepare] <;>
        simp [prepareDoInstall_child]
    | some par =>
      cases pyArg <;> rw [VenvInstance.prepare] <;>
        simp [prepareDoInstall_child, prepare_child_installed_noop ctx fs par]
termination_by structural i => i

/-- C5: materialization is idempotent.  When an instance's installation
prefix already exists on disk and neither `recreate` nor
`recompile_reqs` is requested, `prepare` performs zero tool invocations:
the creation/install branch is skipped at the instance itself, and every
ancestor is reached with `child_was_installed` set, which skips its
branch as well.  Likewise `Interpreter.create_venv` with
`recreate=False` performs no invocation when the base venv directory
exists. -/
theorem prepare_idempotent (ctx : SysCtx) (fs : List PyStr)
    (i : VenvInstance) (p : PyStr)
    (hpfx : VenvInstance.pfx ctx i = some p) (hfs : fs.contains p = true) :
    VenvInstance.prepare ctx fs i none false false false = [] ∧
    (∀ py : Interp, fs.contains (Interp.venvPathRiot ctx py) = true →
      Interp.create_venv ctx fs py false = []) := by
  constructor
  · cases i with
    | mk venv pkgs py0 env name command parent =>
      cases parent with
      | none =>
        rw [VenvInstance.prepare]
        rw [prepareDoInstall_exists ctx fs _ p _ hpfx hfs]
        simp
      | some par =>
        rw [VenvInstance.prepare]
        rw [prepareDoInstall_exists ctx fs _ p _ hpfx hfs, hpfx]
        have hmem : p ∈ fs := by simpa using hfs
        simp [hmem, prepare_child_installed_noop ctx fs par]
  · intro py h
    unfold Interp.create_venv
    rw [if_pos]
    simpa using h

/-- Witness for C5: a concrete one-package instance whose prefix is the
only path on disk; the second `prepare` performs no invocation. -/
theorem prepare_idempotent_witness :
    VenvInstance.prepare ctxDemo [pstr "/cw/.riot/venv_py380_p10"]
      onePkgInst none false false false = [] := by
  exact (prepare_idempotent ctxDemo [pstr "/cw/.riot/venv_py380_p10"]
    onePkgInst (pstr "/cw/.riot/venv_py380_p10") (by decide) (by decide)).1

/-- C4: for a 2-level chain in which both levels install their own
packages, the composed PYTHONPATH list of `riot/riot.py` is exactly
`["", cwd, leaf site-packages, parent site-packages, interpreter base
site-packages]`, leaf-ward entries preceding root-ward ones. -/
theorem site_packages_list_two_level (ctx : SysCtx)
    (child par : VenvInstance) (py : Interp) (spC spP : PyStr)
    (hpar : VenvInstance.parent child = some par)
    (hroot : VenvInstance.parent par = none)
    (hpy : VenvInstance.py child = some py)
    (hnC : VenvInstance.needs_venv child = true)
    (hnP : VenvInstance.needs_venv par = true)
    (hspC : VenvInstance.sitePackagesPathRiot ctx child = some spC)
    (hspP : VenvInstance.sitePackagesPathRiot ctx par = some spP) :
    VenvInstance.site_packages_list ctx child =
      some [[], ctx.cwd, spC, spP, Interp.sitePackagesPathRiot ctx py] := by
  cases child with
  | mk vC pkC pyC eC nmC cC parC =>
    simp only [VenvInstance.parent] at hpar
    simp only [VenvInstance.py] at hpy
    subst hpar
    subst hpy
    cases par with
    | mk vP pkP pyP eP nmP cP parP =>
      simp only [VenvInstance.parent] at hroot
      subst hroot
      unfold VenvInstance.site_packages_list
      rw [spWalkRiot, spWalkRiot]
      simp only [hnC, hnP, hspC, hspP, if_true]
      simp [VenvInstance.py]

set_option maxRecDepth 40000 in
/-- Witness for C4: the concrete chain `c4Child → c4Parent` under
`ctxDemo` composes exactly the claimed five entries in order. -/
theorem site_packages_list_two_level_witness :
    VenvInstance.site_packages_list ctxDemo c4Child =
      some [[], pstr "/cw",
        pstr "/cw/.riot/venv_py380_p10/lib/python3.8/site-packages",
        pstr "/cw/.riot/venv_py380_q20/lib/python3.8/site-packages",
        pstr "/cw/.riot/venv_py380/lib/python3.8/site-packages"] := by
  exact site_packages_list_two_level ctxDemo c4Child c4Parent ⟨pstr "3"⟩
    (pstr "/cw/.riot/venv_py380_p10/lib/python3.8/site-packages")
    (pstr "/cw/.riot/venv_py380_q20/lib/python3.8/site-packages")
    rfl rfl rfl (by decide) (by decide) (by decide) (by decide)

/-- Association of the path concatenations in `pfx`: the parent-dir/name
split recomposes to the base venv path. -/
theorem pfx_assoc (ctx : SysCtx) (py : Interp) (x : PyStr) :
    resolvedRiotFolder ctx ++ pstr "/" ++
        (Interp.baseVenvName ctx py ++ pstr "_" ++ x) =
      Interp.baseVenvPath ctx py ++ pstr "_" ++ x := by
  unfold Interp.baseVenvPath
  simp [List.append_assoc]

/-- C6 (amended): for an instance with an interpreter, the installation
prefix is the base venv path joined by `_` with the sanitized merged
package string (`ident`); when that full path exceeds 255 characters the
code falls back to the base venv path joined by `_` with the SHORT form
of the fingerprint (`short_hash`), not the long form the claim
states. -/
theorem pfx_length_fallback (ctx : SysCtx) (i : VenvInstance) (py : Interp)
    (hpy : VenvInstance.py i = some py) :
    (255 < (Interp.baseVenvPath ctx py ++ pstr "_" ++
        VenvInstance.ident i).length →
      VenvInstance.pfx ctx i =
        some (Interp.baseVenvPath ctx py ++ pstr "_" ++
          VenvInstance.short_hash i)) ∧
    ((Interp.baseVenvPath ctx py ++ pstr "_" ++
        VenvInstance.ident i).length ≤ 255 →
      VenvInstance.pfx ctx i =
        some (Interp.baseVenvPath ctx py ++ pstr "_" ++
          VenvInstance.ident i)) := by
  unfold VenvInstance.pfx
  rw [hpy]
  simp only [pfx_assoc]
  constructor
  · intro h
    rw [if_pos h]
  · intro h
    rw [if_neg (by omega)]

/-- Witness for C6: under `ctxDemo` the short path of the concrete
one-package instance stays below the limit, so the sanitized-package
form is used. -/
theorem pfx_length_fallback_witness :
    VenvInstance.pfx ctxDemo onePkgInst =
      some (Interp.baseVenvPath ctxDemo ⟨pstr "3"⟩ ++ pstr "_" ++
        VenvInstance.ident onePkgInst) := by
  exact (pfx_length_fallback ctxDemo onePkgInst ⟨pstr "3"⟩ rfl).2 (by decide)

set_option maxRecDepth 1000000 in
/-- Counterexample for C6 as stated: with a 300-character working
directory the package-derived path of the concrete one-package instance
exceeds the limit, and the prefix is NOT the base path joined with the
long form of the fingerprint (the code joins the short form). -/
theorem pfx_long_hash_counterexample :
    255 < (Interp.baseVenvPath c6Ctx ⟨pstr "3"⟩ ++ pstr "_" ++
        VenvInstance.ident onePkgInst).length ∧
    VenvInstance.pfx c6Ctx onePkgInst ≠
      some (Interp.baseVenvPath c6Ctx ⟨pstr "3"⟩ ++ pstr "_" ++
        VenvInstance.long_hash onePkgInst) := by
  constructor
  · decide
  · decide

/-! Injectivity of the string encoding fed to the fingerprint hash. -/

theorem pyUnescape_pyEscape (q : Char) (s : PyStr) :
    pyUnescape (pyEscape q s) = s := by
  induction s with
  | nil => rfl
  | cons c cs ih =>
    by_cases hesc : c = backslashChar ∨ c = q
    · simp only [pyEscape, List.flatMap_cons, if_pos hesc]
      simp only [List.cons_append, List.nil_append]
      rw [pyUnescape]
      unfold pyEscape at ih
      simp [ih]
    · have hnb : c ≠ backslashChar := fun hc => hesc (Or.inl hc)
      simp only [pyEscape, List.flatMap_cons, if_neg hesc]
      simp only [List.cons_append, List.nil_append]
      unfold pyEscape at ih
      cases hX : cs.flatMap
          (fun c => if c = backslashChar ∨ c = q then [backslashChar, c]
                    else [c]) with
      | nil =>
        rw [hX] at ih
        have hcs : cs = [] := by
          simpa [pyUnescape] using ih.symm
        subst hcs
        rfl
      | cons d rest =>
        rw [hX] at ih
        rw [pyUnescape, if_neg hnb, ih]

theorem pyReprStr_cons (s : PyStr) :
    pyReprStr s =
      pyQuoteOf s :: (pyEscape (pyQuoteOf s) s ++ [pyQuoteOf s]) := by
  unfold pyReprStr
  simp

theorem pyReprStr_injective (s1 s2 : PyStr)
    (h : pyReprStr s1 = pyReprStr s2) : s1 = s2 := by
  rw [pyReprStr_cons, pyReprStr_cons] at h
  injection h with hq htl
  rw [hq] at htl
  have hb := List.append_cancel_right htl
  have h2 := congrArg pyUnescape hb
  rwa [pyUnescape_pyEscape, pyUnescape_pyEscape] at h2

theorem pyQuoteOf_ne_upper (s : PyStr) (c : Char) (hc1 : c ≠ quoteChar)
    (hc2 : c ≠ dquoteChar) : pyQuoteOf s ≠ c := by
  unfold pyQuoteOf
  by_cases hq : s.contains quoteChar ∧ ¬ s.contains dquoteChar
  · rw [if_pos hq]
    exact fun h => hc2 h.symm
  · rw [if_neg hq]
    exact fun h => hc1 h.symm

theorem reprOptStr_injective (a b : Option PyStr)
    (h : reprOptStr a = reprOptStr b) : a = b := by
  cases a with
  | none =>
    cases b with
    | none => rfl
    | some s =>
      exfalso
      simp only [reprOptStr] at h
      rw [pyReprStr_cons] at h
      rw [show pstr "None" = 'N' :: pstr "one" from rfl] at h
      injection h with hq _
      exact pyQuoteOf_ne_upper s 'N' (by decide) (by decide) hq.symm
  | some s =>
    cases b with
    | none =>
      exfalso
      simp only [reprOptStr] at h
      rw [pyReprStr_cons] at h
      rw [show pstr "None" = 'N' :: pstr "one" from rfl] at h
      injection h with hq _
      exact pyQuoteOf_ne_upper s 'N' (by decide) (by decide) hq
    | some t =>
      rw [show reprOptStr (some s) = pyReprStr s from rfl,
          show reprOptStr (some t) = pyReprStr t from rfl] at h
      rw [pyReprStr_injective s t h]

theorem reprInterp_injective (i1 i2 : Interp)
    (h : reprInterp i1 = reprInterp i2) : i1 = i2 := by
  unfold reprInterp at h
  rw [List.append_assoc, List.append_assoc] at h
  have h1 := List.append_cancel_left h
  have h2 := List.append_cancel_right h1
  obtain ⟨hs1⟩ := i1
  obtain ⟨hs2⟩ := i2
  congr 1
  exact pyReprStr_injective hs1 hs2 h2

theorem reprOptInterp_injective (a b : Option Interp)
    (h : reprOptInterp a = reprOptInterp b) : a = b := by
  cases a with
  | none =>
    cases b with
    | none => rfl
    | some i =>
      exfalso
      rw [show reprOptInterp none = 'N' :: pstr "one" from rfl,
          show reprOptInterp (some i) =
            'I' :: (pstr "nterpreter(_hint=" ++ pyReprStr i.hintStr ++
              pstr ")") from rfl] at h
      injection h with hq _
      exact absurd hq (by decide)
  | some i =>
    cases b with
    | none =>
      exfalso
      rw [show reprOptInterp none = 'N' :: pstr "one" from rfl,
          show reprOptInterp (some i) =
            'I' :: (pstr "nterpreter(_hint=" ++ pyReprStr i.hintStr ++
              pstr ")") from rfl] at h
      injection h with hq _
      exact absurd hq (by decide)
    | some j =>
      rw [show reprOptInterp (some i) = reprInterp i from rfl,
          show reprOptInterp (some j) = reprInterp j from rfl] at h
      rw [reprInterp_injective i j h]

theorem c3Family_full_len (n : Nat) :
    (VenvInstance.full_pkg_str (c3FamilyInst n)).length = n + 2 := by
  unfold c3FamilyInst VenvInstance.full_pkg_str VenvInstance.fullPkgs
    VenvInstance.chain
  rw [rootChain_eq]
  simp [dictUpdate, dictLookup, dictContains, pip_deps, get_pep_dep,
    joinStr, VenvInstance.pkgs, List.filterMap]

/-- Counterexample for the injectivity conjunct of C3 as stated: the
truncated digest takes fewer than `2^61` values while the merged package
string ranges over infinitely many values, so two instances with the
same name and interpreter but different merged package strings must
share their `long_hash`. -/
theorem long_hash_not_injective :
    ¬ (∀ i1 i2 : VenvInstance,
        VenvInstance.name i1 = VenvInstance.name i2 →
        VenvInstance.py i1 = VenvInstance.py i2 →
        VenvInstance.full_pkg_str i1 ≠ VenvInstance.full_pkg_str i2 →
        VenvInstance.long_hash i1 ≠ VenvInstance.long_hash i2) := by
  intro hclaim
  obtain ⟨m, n, hmn, heq⟩ := Finite.exists_ne_map_eq_of_infinite c3HashFam
  have hfull : VenvInstance.full_pkg_str (c3FamilyInst m) ≠
      VenvInstance.full_pkg_str (c3FamilyInst n) := by
    intro he
    have := congrArg List.length he
    rw [c3Family_full_len, c3Family_full_len] at this
    omega
  have hhash : VenvInstance.long_hash (c3FamilyInst m) =
      VenvInstance.long_hash (c3FamilyInst n) := by
    have hv := congrArg Fin.val heq
    unfold VenvInstance.long_hash
    rw [show (c3HashFam m).val = VenvInstance.hashValue (c3FamilyInst m)
        from rfl,
      show (c3HashFam n).val = VenvInstance.hashValue (c3FamilyInst n)
        from rfl] at hv
    rw [hv]
  exact hclaim (c3FamilyInst m) (c3FamilyInst n) rfl rfl hfull hhash

/-- C3 (amended): the fingerprint is a pure function of (name,
interpreter, merged package string) — equal inputs give equal
`(long_hash, short_hash)`; `short_hash` is always the first 7 characters
of `long_hash`; and changing exactly one of the three inputs changes the
byte string fed to the SHA-256 hash (the `repr`-based encoding of the
triple is injective in each argument), though the truncated digest
itself must collide for some distinct inputs. -/
theorem fingerprint_pure_and_input_injective :
    (∀ i1 i2 : VenvInstance,
        VenvInstance.name i1 = VenvInstance.name i2 →
        VenvInstance.py i1 = VenvInstance.py i2 →
        VenvInstance.full_pkg_str i1 = VenvInstance.full_pkg_str i2 →
        VenvInstance.long_hash i1 = VenvInstance.long_hash i2 ∧
        VenvInstance.short_hash i1 = VenvInstance.short_hash i2) ∧
    (∀ i : VenvInstance,
        VenvInstance.short_hash i = (VenvInstance.long_hash i).take 7) ∧
    (∀ i1 i2 : VenvInstance,
        ((VenvInstance.name i1 = VenvInstance.name i2 ∧
          VenvInstance.py i1 = VenvInstance.py i2 ∧
          VenvInstance.full_pkg_str i1 ≠ VenvInstance.full_pkg_str i2) ∨
         (VenvInstance.name i1 ≠ VenvInstance.name i2 ∧
          VenvInstance.py i1 = VenvInstance.py i2 ∧
          VenvInstance.full_pkg_str i1 = VenvInstance.full_pkg_str i2) ∨
         (VenvInstance.name i1 = VenvInstance.name i2 ∧
          VenvInstance.py i1 ≠ VenvInstance.py i2 ∧
          VenvInstance.full_pkg_str i1 = VenvInstance.full_pkg_str i2)) →
        VenvInstance.hashInputStr i1 ≠ VenvInstance.hashInputStr i2) := by
  refine ⟨?_, ?_, ?_⟩
  · intro i1 i2 hn hp hf
    have hin : VenvInstance.hashInputStr i1 = VenvInstance.hashInputStr i2 := by
      unfold VenvInstance.hashInputStr
      rw [hn, hp, hf]
    have hl : VenvInstance.long_hash i1 = VenvInstance.long_hash i2 := by
      unfold VenvInstance.long_hash VenvInstance.hashValue
      rw [hin]
    refine ⟨hl, ?_⟩
    unfold VenvInstance.short_hash
    rw [hl]
  · intro i
    rfl
  · intro i1 i2 hcase heq
    unfold VenvInstance.hashInputStr at heq
    rcases hcase with ⟨hn, hp, hf⟩ | ⟨hn, hp, hf⟩ | ⟨hn, hp, hf⟩
    · rw [hn, hp] at heq
      exact hf (List.append_cancel_left heq)
    · rw [hp, hf] at heq
      have h1 := List.append_cancel_right heq
      exact hn (reprOptStr_injective _ _ (List.append_cancel_right h1))
    · rw [hn, hf] at heq
      have h1 := List.append_cancel_right heq
      exact hp (reprOptInterp_injective _ _ (List.append_cancel_left h1))

set_option maxHeartbeats 1000000 in
set_option maxRecDepth 100000 in
/-- Witness for C3: two concrete leaf instances that differ only in the
name feed different byte strings to the hash; the other conjuncts are
exercised at a concrete instance. -/
theorem fingerprint_pure_witness :
    VenvInstance.hashInputStr
        (VenvInstance.mk plainVenv [] none [] (some (pstr "x")) none none) ≠
      VenvInstance.hashInputStr
        (VenvInstance.mk plainVenv [] none [] (some (pstr "y")) none none) ∧
    VenvInstance.short_hash onePkgInst =
      (VenvInstance.long_hash onePkgInst).take 7 := by
  constructor
  · exact fingerprint_pure_and_input_injective.2.2
      (VenvInstance.mk plainVenv [] none [] (some (pstr "x")) none none)
      (VenvInstance.mk plainVenv [] none [] (some (pstr "y")) none none)
      (Or.inr (Or.inl ⟨by decide, rfl, rfl⟩))
  · exact fingerprint_pure_and_input_injective.2.1 onePkgInst

/-! Counting the expansion. -/

theorem flatMap_length_const {A B : Type} (l : List A) (f : A → List B)
    (c : Nat) (h : ∀ a ∈ l, (f a).length = c) :
    (l.flatMap f).length = l.length * c := by
  induction l with
  | nil => simp
  | cons a l ih =>
    simp only [List.flatMap_cons, List.length_append, List.length_cons]
    rw [h a (List.mem_cons_self a l),
      ih (fun x hx => h x (List.mem_cons_of_mem _ hx))]
    ring

theorem expand_specs_length {V : Type} (d : List (PyStr × List V)) :
    (expand_specs d).length = (d.map (fun kv => kv.2.length)).prod := by
  induction d with
  | nil => rfl
  | cons kv rest ih =>
    obtain ⟨k, vs⟩ := kv
    rw [expand_specs]
    rw [flatMap_length_const _ _ (expand_specs rest).length
      (fun v _ => List.length_map _ _)]
    rw [ih]
    simp [List.prod_cons]

theorem specList_sum (cs : List Venv) :
    ((Venv.leafPathsList cs).map (fun p => (p.map nodeFactor).prod)).sum =
      (cs.map specInstanceCount).sum := by
  induction cs with
  | nil => rfl
  | cons c cs ih =>
    rw [Venv.leafPathsList]
    simp only [List.map_append, List.sum_append, List.map_cons,
      List.sum_cons]
    rw [ih]
    rfl

theorem specInstanceCount_eq (pys : List Interp)
    (pkgs : List (PyStr × List (Option PyStr)))
    (env : List (PyStr × List PyStr)) (name command : Option PyStr)
    (venvs : List Venv) (create skipDev : Bool) :
    specInstanceCount (.mk pys pkgs env name command venvs create skipDev) =
      nodeFactor (.mk pys pkgs env name command venvs create skipDev) *
      childSum venvs := by
  cases venvs with
  | nil =>
    unfold specInstanceCount
    rw [Venv.leafPaths]
    simp [childSum]
  | cons c cs =>
    unfold specInstanceCount
    rw [Venv.leafPaths]
    rw [List.map_map]
    have hcomp : ((fun p => (p.map nodeFactor).prod) ∘
        (fun p => Venv.mk pys pkgs env name command (c :: cs) create
          skipDev :: p)) =
        (fun p => nodeFactor (.mk pys pkgs env name command (c :: cs)
          create skipDev) * (p.map nodeFactor).prod) := by
      funext p
      simp [List.prod_cons]
    rw [hcomp, List.sum_map_mul_left, specList_sum]
    rfl

theorem instances_length_aux (pys : List Interp)
    (pkgs : List (PyStr × List (Option PyStr)))
    (env : List (PyStr × List PyStr)) (name command : Option PyStr)
    (venvs : List Venv) (create skipDev : Bool) (p : Option VenvInstance)
    (C : Nat)
    (hleaf : ∀ inst : VenvInstance,
        (match venvs with
         | [] => [inst]
         | cs => Venv.instancesList cs inst).length = C) :
    (Venv.instances (.mk pys pkgs env name command venvs create skipDev)
        p).length =
      nodeFactor (.mk pys pkgs env name command venvs create skipDev) *
        C := by
  cases p with
  | none =>
    cases pys with
    | nil =>
      rw [Venv.instances]
      rw [flatMap_length_const _ _
        (1 * ((expand_specs pkgs).length * C))
        (fun envSpec _ => by
          rw [flatMap_length_const _ _
            ((expand_specs pkgs).length * C)
            (fun py _ => by
              rw [flatMap_length_const _ _ C
                (fun pkgSpec _ => hleaf _)])]
          rfl)]
      rw [expand_specs_length]
      simp [nodeFactor, envCombos, pkgCombos, interpCount,
        Venv.pys, Venv.env, Venv.pkgs, expand_specs_length]
      ring
    | cons q qs =>
      rw [Venv.instances]
      rw [flatMap_length_const _ _
        ((q :: qs).length * ((expand_specs pkgs).length * C))
        (fun envSpec _ => by
          rw [flatMap_length_const _ _
            ((expand_specs pkgs).length * C)
            (fun py _ => by
              rw [flatMap_length_const _ _ C
                (fun pkgSpec _ => hleaf _)])]
          simp)]
      rw [expand_specs_length]
      simp [nodeFactor, envCombos, pkgCombos, interpCount,
        Venv.pys, Venv.env, Venv.pkgs, expand_specs_length]
      ring
      intro h
      exact List.noConfusion h
  | some pi =>
    cases pys with
    | nil =>
      rw [Venv.instances]
      rw [flatMap_length_const _ _
        (1 * ((expand_specs pkgs).length * C))
        (fun envSpec _ => by
          rw [flatMap_length_const _ _
            ((expand_specs pkgs).length * C)
            (fun py _ => by
              rw [flatMap_length_const _ _ C
                (fun pkgSpec _ => hleaf _)])]
          rfl)]
      rw [expand_specs_length]
      simp [nodeFactor, envCombos, pkgCombos, interpCount,
        Venv.pys, Venv.env, Venv.pkgs, expand_specs_length]
      ring
    | cons q qs =>
      rw [Venv.instances]
      rw [flatMap_length_const _ _
        ((q :: qs).length * ((expand_specs pkgs).length * C))
        (fun envSpec _ => by
          rw [flatMap_length_const _ _
            ((expand_specs pkgs).length * C)
            (fun py _ => by
              rw [flatMap_length_const _ _ C
                (fun pkgSpec _ => hleaf _)])]
          simp)]
      rw [expand_specs_length]
      simp [nodeFactor, envCombos, pkgCombos, interpCount,
        Venv.pys, Venv.env, Venv.pkgs, expand_specs_length]
      ring
      intro h
      exact List.noConfusion h

mutual

theorem instances_length : ∀ (v : Venv) (p : Option VenvInstance),
    (Venv.instances v p).length = specInstanceCount v
  | .mk pys pkgs env name command venvs create skipDev, p => by
    rw [specInstanceCount_eq]
    exact instances_length_aux pys pkgs env name command venvs create
      skipDev p (childSum venvs) (fun inst => by
        cases venvs with
        | nil => rfl
        | cons c cs => exact instancesList_length (c :: cs) inst)

theorem instancesList_length : ∀ (cs : List Venv) (inst : VenvInstance),
    (Venv.instancesList cs inst).length = (cs.map specInstanceCount).sum
  | [], _ => by
    rw [Venv.instancesList]
    rfl
  | c :: cs, inst => by
    rw [Venv.instancesList]
    simp only [List.length_append, List.map_cons, List.sum_cons]
    rw [instances_length c (some inst), instancesList_length cs inst]

end


/-- C1: for every spec tree, the number of instances enumerated by
`Venv.instances` (no filter) equals the sum, over root-to-leaf paths, of
the product along the path of env-combinations x interpreter-count x
package-combinations, each combination count being the product of the
lengths of the node's own value lists. -/
theorem instance_count_eq_path_sum (v : Venv) :
    (Venv.instances v none).length = specInstanceCount v :=
  instances_length v none

/-! The name filter: applied per instance after full expansion, not as a
pruning of the tree. -/

theorem runSelect_sound (ctx : SysCtx) (p vp : PyStr → Bool)
    (pythons : Option (List Interp)) (xs : List VenvInstance) :
    ∀ (l : List VenvInstance),
      runSelect ctx p vp pythons xs = some l →
      ∀ i ∈ l, i ∈ xs ∧ ¬ i.command = none ∧
        (∀ n, i.name = some n → n.isEmpty = false → p n = true) := by
  induction xs with
  | nil =>
    intro l h i hi
    rw [runSelect] at h
    cases h
    cases hi
  | cons x xs ih =>
    intro l h i hi
    rw [runSelect] at h
    simp only [] at h
    split at h
    · obtain ⟨hm, h2⟩ := ih l h i hi
      exact ⟨List.mem_cons_of_mem _ hm, h2⟩
    · rename_i hcmd
      split at h
      · obtain ⟨hm, h2⟩ := ih l h i hi
        exact ⟨List.mem_cons_of_mem _ hm, h2⟩
      · rename_i hns
        split at h
        · cases h
        · rename_i py hpy
          split at h
          · obtain ⟨hm, h2⟩ := ih l h i hi
            exact ⟨List.mem_cons_of_mem _ hm, h2⟩
          · split at h
            · cases h
            · rename_i vpath hvp
              split at h
              · obtain ⟨hm, h2⟩ := ih l h i hi
                exact ⟨List.mem_cons_of_mem _ hm, h2⟩
              · cases hrest : runSelect ctx p vp pythons xs with
                | none => rw [hrest] at h; cases h
                | some l0 =>
                  rw [hrest] at h
                  have h0 : some (x :: l0) = some l := h
                  cases h0
                  cases hi with
                  | head =>
                    refine ⟨List.mem_cons_self _ _, hcmd, ?_⟩
                    intro n hn hne
                    simp only [hn, hne] at hns
                    simp at hns
                    exact hns
                  | tail _ hi0 =>
                    obtain ⟨hm, h2⟩ := ih l0 hrest i hi0
                    exact ⟨List.mem_cons_of_mem _ hm, h2⟩

/-- C7 (amended): the name filter acts per instance after the tree is
fully expanded — every instance `Session.run` selects comes from the
unfiltered expansion, has a command, and has its own resolved name
(when present and non-empty) matching the pattern; named branches are
not pruned before descending. -/
theorem run_name_filter_post_expansion (ctx : SysCtx) (p vp : PyStr → Bool)
    (pythons : Option (List Interp)) (venv : Venv)
    (l : List VenvInstance)
    (h : Session.selected ctx p vp pythons venv = some l) :
    ∀ i ∈ l, i ∈ Venv.instances venv none ∧ ¬ i.command = none ∧
      (∀ n, i.name = some n → n.isEmpty = false → p n = true) :=
  runSelect_sound ctx p vp pythons (Venv.instances venv none) l h

/-- Witness for the amended C7 statement on the concrete two-node tree:
the single selected instance comes from the expansion, carries the
inherited command, and its overridden name `b` matches the pattern. -/
theorem run_name_filter_post_expansion_witness :
    Session.selected ctxDemo c7Pattern (fun x => true) none c7Tree =
        some [c7Inst] ∧
      ∀ i ∈ [c7Inst], i ∈ Venv.instances c7Tree none ∧
        ¬ i.command = none ∧
        (∀ n, i.name = some n → n.isEmpty = false → c7Pattern n = true) :=
  ⟨rfl, run_name_filter_post_expansion ctxDemo c7Pattern (fun x => true)
    none c7Tree [c7Inst] rfl⟩

/-- Counterexample to C7 as stated: in `c7Tree` the root's resolved name
`a` is present and fails the pattern, yet the expansion enumerates the
instance beneath it (whose name is overridden to the matching `b`) and
`Session.run` selects it for execution — the branch is not pruned. -/
theorem name_prune_counterexample :
    Venv.name c7Tree = some (pstr "a") ∧
    c7Pattern (pstr "a") = false ∧
    (Venv.instances c7Tree none).map VenvInstance.name =
      [some (pstr "b")] ∧
    Session.selected ctxDemo c7Pattern (fun x => true) none c7Tree =
      some [c7Inst] :=
  ⟨rfl, by decide, rfl, rfl⟩
